import Mathlib

/-!
Verification of the backward-pagination backfill engine and the performance
statistics engine of the CMF_2025_Step_2 repository.

The statistics engine (src/backtesters.py) is embedded as functions over
`List ℝ` (a return series is the list of its daily returns, in order).
`scipy.stats.norm.cdf` is an external collaborator; it enters the embedding
as an explicit function parameter `Φ`.  Python `float` arithmetic is embedded
in `ℝ`; the `float` NaN sentinel returned by `CalmarRatio`/`SortinoRatio`
is embedded as `Option ℝ` with `none` for the sentinel.

The data downloader (src/data_downloader.py) is embedded over exact data:
timestamps are `ℤ` (milliseconds since epoch) and record fields are `ℚ`.
The raw Bybit page request is an external collaborator; it enters the
embedding as a function from the query window end to a `FetchOutcome`
(transport error, API error code, or a page of klines).
-/

namespace Backtesters

noncomputable section

/-- `days_in_year = 365.25` (backtesters.py line 8). -/
def days_in_year : ℝ := 365.25

/-- `np.mean` of a series. -/
def mean (l : List ℝ) : ℝ := l.sum / l.length

/-- `np.std` of a series: population standard deviation (ddof = 0). -/
def stdPop (l : List ℝ) : ℝ :=
  Real.sqrt ((l.map (fun x => (x - mean l) ^ 2)).sum / l.length)

/-- pandas `Series.std()`: sample standard deviation (ddof = 1); used in
`deflated_sharpe` on the cross-section of ensemble Sharpe ratios. -/
def stdSample (l : List ℝ) : ℝ :=
  Real.sqrt ((l.map (fun x => (x - mean l) ^ 2)).sum / ((l.length : ℝ) - 1))

/-- `Return` (backtesters.py lines 10-16): mean daily return times 365.25. -/
def Return (rets : List ℝ) : ℝ := mean rets * days_in_year

/-- `Volatility` (lines 19-25): `np.std(rets) * sqrt(365.25)`. -/
def Volatility (rets : List ℝ) : ℝ := stdPop rets * Real.sqrt days_in_year

/-- `SharpeRatio` (lines 28-35): `Return(rets) / Volatility(rets)`, with no
guard on the denominator. -/
def SharpeRatio (rets : List ℝ) : ℝ := Return rets / Volatility rets

/-- `ROI` (lines 37-44): compounded growth `prod (1 + r) - 1`. -/
def ROI (rets : List ℝ) : ℝ := (rets.map (fun r => 1 + r)).prod - 1

/-- `(1 + rets).cumprod()`: running product with accumulator `a`. -/
def cumprodAux (a : ℝ) : List ℝ → List ℝ
  | [] => []
  | x :: xs => (a * x) :: cumprodAux (a * x) xs

/-- `.cummax()`: running maximum with accumulator `m`. -/
def cummaxAux (m : ℝ) : List ℝ → List ℝ
  | [] => []
  | x :: xs => max m x :: cummaxAux (max m x) xs

/-- pandas `.min()` over a column (junk value 0 for the empty frame). -/
def listMin : List ℝ → ℝ
  | [] => 0
  | x :: xs => xs.foldl min x

/-- `MaxDrawdown` (lines 46-55): wealth index, its running maximum, the
relative drawdowns, and their minimum. -/
def MaxDrawdown (rets : List ℝ) : ℝ :=
  let wealth := cumprodAux 1 (rets.map (fun r => 1 + r))
  let rollingMax :=
    match wealth with
    | [] => []
    | x :: _ => cummaxAux x wealth
  let drawdowns := List.zipWith (fun w m => (w - m) / m) wealth rollingMax
  listMin drawdowns

/-- `CalmarRatio` (lines 57-68): `Return / |MaxDrawdown|` when
`abs(mdd) > 1e-8`, otherwise the NaN sentinel (`none`). -/
def CalmarRatio (rets : List ℝ) : Option ℝ :=
  let mdd := MaxDrawdown rets
  if |mdd| > 1e-8 then some (Return rets / |mdd|) else none

/-- The downside volatility computed inside `SortinoRatio` (lines 78-84):
population std of the strictly negative returns, annualized; defined as 0
when there are no negative returns. -/
def downside_vol (rets : List ℝ) : ℝ :=
  let downside := rets.filter (fun r => decide (r < 0))
  if downside.length = 0 then 0 else stdPop downside * Real.sqrt days_in_year

/-- `SortinoRatio` (lines 70-89): `Return / downside_vol` when
`downside_vol > 1e-8`, otherwise the NaN sentinel (`none`). -/
def SortinoRatio (rets : List ℝ) : Option ℝ :=
  if downside_vol rets > 1e-8 then some (Return rets / downside_vol rets) else none

/-- Biased central moment of order `k`, the building block of
`scipy.stats.skew` and `scipy.stats.kurtosis`. -/
def centralMoment (k : ℕ) (l : List ℝ) : ℝ :=
  (l.map (fun x => (x - mean l) ^ k)).sum / l.length

/-- `scipy.stats.skew` (biased): `m3 / m2 ** 1.5`, with `m2 ** 1.5`
written as `Real.sqrt (m2 ^ 3)`. -/
def skew (l : List ℝ) : ℝ :=
  centralMoment 3 l / Real.sqrt (centralMoment 2 l ^ 3)

/-- `scipy.stats.kurtosis` (Fisher, biased): `m4 / m2 ^ 2 - 3`. -/
def kurtosis (l : List ℝ) : ℝ :=
  centralMoment 4 l / centralMoment 2 l ^ 2 - 3

/-- `prob_sharpe` (backtesters.py lines 120-145).  `norm.cdf` is the external
collaborator `Φ`.  `len(strategy)` is the number of returns. -/
def prob_sharpe (Φ : ℝ → ℝ) (returns : List ℝ) (sr_tested sr_etalon : ℝ) : ℝ :=
  let y3 := skew returns
  let y4 := kurtosis returns + 3
  let stat := (sr_tested - sr_etalon) * Real.sqrt ((returns.length : ℝ) - 1)
      / Real.sqrt (1 - y3 * sr_tested + (y4 - 1) * sr_tested / 4)
  Φ stat

/-- `deflated_sharpe` (backtesters.py lines 148-174).  The ensemble
`bagging_strategies` is the list of the N strategies' return series (the
columns of the source's DataFrame).  The source computes its constant `y`
as `round((1.0 - math.gamma(1 + 1.0e-8)) * 1.0e14) * 1.0e-6` through the
external libm `math.gamma`; in the source's double-precision arithmetic
this evaluates to exactly `577216 * 1.0e-6` (the Euler–Mascheroni constant
rounded to 6 decimal places), which is the value used here. -/
def deflated_sharpe (Φ : ℝ → ℝ) (returns : List ℝ)
    (bagging_strategies : List (List ℝ)) (sr_tested : ℝ) : ℝ :=
  let y : ℝ := 577216 * 1.0e-6
  let sharpes := bagging_strategies.map SharpeRatio
  let N : ℝ := (bagging_strategies.length : ℝ)
  let sr_std := stdSample sharpes
  let sr_etalon := sr_std * ((1 - y) / Φ (1 - 1 / N) + y / Φ (1 - 1 / (N * Real.exp 1)))
  prob_sharpe Φ returns sr_tested sr_etalon

/-- The z-statistic of `ProbabilisticSharpeRatio` as the spec sentence for
claim C1 writes it: the excess-kurtosis term is multiplied by the square of
the tested Sharpe ratio.  Second definition written from the spec's words,
to be compared with `prob_sharpe` above. -/
def psr_spec_z (returns : List ℝ) (sr_tested sr_etalon : ℝ) : ℝ :=
  (sr_tested - sr_etalon) * Real.sqrt ((returns.length : ℝ) - 1)
    / Real.sqrt (1 - skew returns * sr_tested
        + ((kurtosis returns + 3 - 1) / 4) * sr_tested ^ 2)

/-- The Deflated-Sharpe benchmark as the spec sentence for claim C2 writes
it: `srStd * ((1-γ)·Φ⁻¹(1-1/N) + γ·Φ⁻¹(1-1/(N·e)))`, with the inverse CDF
`Φinv` applied and the terms multiplied.  Second definition written from
the spec's words, to be compared with the benchmark inside
`deflated_sharpe` above. -/
def dsr_spec_etalon (g : ℝ) (Φinv : ℝ → ℝ) (bagging : List (List ℝ)) : ℝ :=
  let sharpes := bagging.map SharpeRatio
  let N : ℝ := (bagging.length : ℝ)
  stdSample sharpes * ((1 - g) * Φinv (1 - 1 / N) + g * Φinv (1 - 1 / (N * Real.exp 1)))

end

end Backtesters

namespace Downloader

/-- One raw kline record of a Bybit page, already parsed to numbers
(data_downloader.py lines 94-101): timestamp in ms and the six numeric
columns.  The field `opn` is the source's `open` column. -/
structure Kline where
  ts : ℤ
  opn : ℚ
  high : ℚ
  low : ℚ
  close : ℚ
  volume : ℚ
  turnover : ℚ
deriving DecidableEq

/-- One row of the DataFrame returned by `get_spot_prices_bybit` /
`get_future_price_bybit`: the time index and the six `{col_name}_*`
columns (lines 104-114 and 372-382). -/
structure PriceRow where
  ts : ℤ
  openV : ℚ
  highV : ℚ
  lowV : ℚ
  closeV : ℚ
  volumeV : ℚ
  turnoverV : ℚ
deriving DecidableEq

/-- Outcome of one raw page request to the external source:
a transport/protocol failure (the `except` path, lines 121-123 / 389-391),
a source-reported error code (`retCode != 0`, lines 117-119 / 385-387), or
a successful page of klines. -/
inductive FetchOutcome where
  | transportError : FetchOutcome
  | apiError : FetchOutcome
  | ok : List Kline → FetchOutcome

/-- Ordering of price rows by their time index. -/
def rowLE (a b : PriceRow) : Prop := a.ts ≤ b.ts

instance : DecidableRel rowLE := fun a b => Int.decLe a.ts b.ts

instance : IsTotal PriceRow rowLE := ⟨fun a b => Int.le_total a.ts b.ts⟩

instance : IsTrans PriceRow rowLE := ⟨fun _ _ _ hab hbc => le_trans hab hbc⟩

/-- pandas `sort_index()` on a frame indexed by time. -/
def sortRows (l : List PriceRow) : List PriceRow := l.insertionSort rowLE

/-- Column assembly of one fetched page (lines 104-114 / 372-382): note the
source assigns the `open` column to `{col_name}_high` and `{col_name}_low`
as well; the result is returned time-sorted (`token.sort_index()`). -/
def processKlines (ks : List Kline) : List PriceRow :=
  sortRows (ks.map fun k =>
    { ts := k.ts, openV := k.opn, highV := k.opn, lowV := k.opn,
      closeV := k.close, volumeV := k.volume, turnoverV := k.turnover })

/-- `get_spot_prices_bybit` (lines 53-123): on a transport error or an API
error code it swallows the failure and returns an empty frame; otherwise it
returns the processed page. -/
def get_spot_prices_bybit : FetchOutcome → List PriceRow
  | .transportError => []
  | .apiError => []
  | .ok ks => processKlines ks

/-- `get_future_price_bybit` (lines 318-391): identical processing to the
spot case (the source duplicates the code, including the `open`-into-
high/low assignment). -/
def get_future_price_bybit : FetchOutcome → List PriceRow
  | .transportError => []
  | .apiError => []
  | .ok ks => processKlines ks

/-- `df.index[0]` of a nonempty frame (junk value 0 for an empty one). -/
def firstTs : List PriceRow → ℤ
  | [] => 0
  | r :: _ => r.ts

/-- The backward-pagination loop of `get_spot_data_bybit_full_period`
(lines 159-195), duplicated verbatim for futures (lines 426-459).
`page_of cEnd` is the frame the page fetcher returns for the window
`[startMs, cEnd]`.  Per iteration: an empty page stops the loop; the page
is filtered to `index >= start_time`; an empty filtered page stops the
loop; the filtered page is appended; reaching `start` stops the loop; more
than 10000 accumulated pages stops the loop (the cap is checked after the
append, so it fires on the 10001st page); otherwise the window end moves
to one ms before the earliest record. -/
def pagedWalk (page_of : ℤ → List PriceRow) (startMs : ℤ)
    (currentEnd : ℤ) (acc : List (List PriceRow)) : List (List PriceRow) :=
  let df := page_of currentEnd
  if df = [] then acc
  else
    let kept := df.filter (fun r => decide (startMs ≤ r.ts))
    if kept = [] then acc
    else
      if firstTs kept ≤ startMs then acc ++ [kept]
      else if 10000 < (acc ++ [kept]).length then acc ++ [kept]
      else pagedWalk page_of startMs (firstTs kept - 1) (acc ++ [kept])
termination_by 10001 - acc.length
decreasing_by simp_all; omega

/-- Dedup keeping the first occurrence of each key, against the list of
keys already seen. -/
def dedupByKeyAux {α β : Type} [DecidableEq β] (key : α → β) :
    List β → List α → List α
  | _, [] => []
  | seen, x :: xs =>
    if key x ∈ seen then dedupByKeyAux key seen xs
    else x :: dedupByKeyAux key (key x :: seen) xs

/-- pandas `duplicated(keep='first')` / `drop_duplicates()`: keep the first
row carrying each key value. -/
def dedupByKey {α β : Type} [DecidableEq β] (key : α → β) (l : List α) : List α :=
  dedupByKeyAux key [] l

/-- The merge step shared by both full-period loaders (lines 198-202 and
462-465): concatenate all pages, sort by the time index, drop rows whose
timestamp already occurred, and trim to `[startMs, endMs]` inclusive. -/
def mergeDedup (dfs : List (List PriceRow)) (startMs endMs : ℤ) : List PriceRow :=
  let full := sortRows dfs.flatten
  let dd := dedupByKey (fun r => r.ts) full
  dd.filter (fun r => decide (startMs ≤ r.ts) && decide (r.ts ≤ endMs))

/-- `get_spot_data_bybit_full_period` (lines 126-207): run the backward
walk from `endMs`, then merge; with no collected pages the result is the
explicitly empty frame. -/
def get_spot_data_bybit_full_period (fetch : ℤ → FetchOutcome)
    (startMs endMs : ℤ) : List PriceRow :=
  let dfs := pagedWalk (fun cEnd => get_spot_prices_bybit (fetch cEnd)) startMs endMs []
  if dfs = [] then [] else mergeDedup dfs startMs endMs

/-- `get_future_data_bybit_full_period` (lines 394-470): the same control
flow over the futures page fetcher. -/
def get_future_data_bybit_full_period (fetch : ℤ → FetchOutcome)
    (startMs endMs : ℤ) : List PriceRow :=
  let dfs := pagedWalk (fun cEnd => get_future_price_bybit (fetch cEnd)) startMs endMs []
  if dfs = [] then [] else mergeDedup dfs startMs endMs

/-- One funding payment record (timestamp in ms, parsed rate). -/
structure FundingRate where
  ts : ℤ
  rate : ℚ
deriving DecidableEq

/-- `min(int(r['fundingRateTimestamp']) for r in rates)` (line 262);
junk value 0 for an empty list. -/
def minTs : List FundingRate → ℤ
  | [] => 0
  | r :: rs => rs.foldl (fun m x => min m x.ts) r.ts

/-- The funding pagination loop of `get_funding_bybit` (lines 252-267).
`fetch cEnd` models `get_funding_rates(symbol, end_time=cEnd)`, whose
result is `none` on a transport error or an API error code (lines
222-228).  This loop has no iteration cap in the source, so it is embedded
with explicit fuel: `none` means the loop has not terminated within `fuel`
iterations. -/
def fundingWalk (fetch : ℤ → Option (List FundingRate)) (startMs : ℤ) :
    ℕ → ℤ → List FundingRate → Option (List FundingRate)
  | 0, _, _ => none
  | fuel + 1, currentEnd, acc =>
    match fetch currentEnd with
    | none => some acc
    | some [] => some acc
    | some rates =>
      let acc2 := acc ++ rates.filter (fun r => decide (startMs ≤ r.ts))
      if minTs rates ≤ startMs then some acc2
      else fundingWalk fetch startMs fuel (minTs rates - 1) acc2

/-- One hour in milliseconds. -/
def hourMs : ℤ := 3600000

/-- `floor('H')` on a ms timestamp. -/
def floorHour (t : ℤ) : ℤ := hourMs * Int.ediv t hourMs

/-- `ceil('H')` on a ms timestamp. -/
def ceilHour (t : ℤ) : ℤ := -(hourMs * Int.ediv (-t) hourMs)

/-- `pd.date_range(start=start.floor('H'), end=end.ceil('H'), freq='H')`
(line 295): every hour boundary from `floorHour startMs` up to
`ceilHour endMs` inclusive. -/
def hourlyRange (startMs endMs : ℤ) : List ℤ :=
  (List.range (Int.ediv (ceilHour endMs - floorHour startMs) hourMs + 1).toNat).map
    (fun i : ℕ => floorHour startMs + (i : ℤ) * hourMs)

/-- Ordering of funding records by timestamp. -/
def fundLE (a b : FundingRate) : Prop := a.ts ≤ b.ts

instance : DecidableRel fundLE := fun a b => Int.decLe a.ts b.ts

instance : IsTotal FundingRate fundLE := ⟨fun a b => Int.le_total a.ts b.ts⟩

instance : IsTrans FundingRate fundLE := ⟨fun _ _ _ hab hbc => le_trans hab hbc⟩

/-- The grid-alignment part of `get_funding_bybit` (lines 274-308), applied
to the collected funding events: `drop_duplicates('fundingTime')`, sort by
time, trim to `[startMs, endMs]` (lines 279-281); then the series is
deduplicated BY VALUE (`fund_series.drop_duplicates()`, line 302),
reindexed onto the full hourly grid — a grid hour picks up the rate of the
event whose timestamp equals it exactly, if any — and the holes are filled
with `0.0` (lines 305-308). -/
def get_funding_bybit_grid (events : List FundingRate) (startMs endMs : ℤ) :
    List (ℤ × ℚ) :=
  let df := ((dedupByKey (fun r => r.ts) events).insertionSort fundLE).filter
      (fun r => decide (startMs ≤ r.ts) && decide (r.ts ≤ endMs))
  let fund := dedupByKey (fun r => r.rate) df
  (hourlyRange startMs endMs).map (fun h =>
    (h, match fund.find? (fun r => decide (r.ts = h)) with
        | some r => r.rate
        | none => 0))

end Downloader

namespace Backtesters

lemma mean_replicate (c : ℝ) (n : ℕ) (hn : 0 < n) :
    mean (List.replicate n c) = c := by
  simp [mean, List.sum_replicate, nsmul_eq_mul]
  field_simp

lemma stdPop_replicate (c : ℝ) (n : ℕ) (hn : 0 < n) :
    stdPop (List.replicate n c) = 0 := by
  simp [stdPop, mean_replicate c n hn, List.map_replicate, sub_self]

/-- C10: `SharpeRatio` divides by `Volatility` with no guard; on a constant
return series the volatility is exactly 0, so the division is a division by
zero (in the source's float arithmetic this produces an infinite or NaN
value, with no sentinel branch like the ones in `CalmarRatio` and
`SortinoRatio`). -/
theorem SharpeRatio_unguarded_div_by_zero (c : ℝ) (n : ℕ) (h : 1 ≤ n) :
    Volatility (List.replicate n c) = 0
    ∧ SharpeRatio (List.replicate n c) = Return (List.replicate n c) / 0 := by
  have hv : Volatility (List.replicate n c) = 0 := by
    simp [Volatility, stdPop_replicate c n h]
  exact ⟨hv, by rw [SharpeRatio, hv]⟩

/-- Witness for C10 at the concrete constant series `[2, 2, 2]`. -/
theorem SharpeRatio_unguarded_div_by_zero_witness :
    1 ≤ 3
    ∧ (Volatility (List.replicate 3 (2 : ℝ)) = 0
      ∧ SharpeRatio (List.replicate 3 (2 : ℝ))
          = Return (List.replicate 3 (2 : ℝ)) / 0) :=
  ⟨by norm_num, SharpeRatio_unguarded_div_by_zero 2 3 (by norm_num)⟩

/-- C8 (amended): the sentinel conditions are `≤ 1e-8`, not `< 1e-8`:
`CalmarRatio` returns the NaN sentinel exactly when `|MaxDrawdown| ≤ 1e-8`,
and `SortinoRatio` returns it exactly when the annualized downside
deviation is `≤ 1e-8` (which covers the all-non-negative case, where the
downside deviation is defined as 0); in these cases the sentinel is
returned, no exception is raised. -/
theorem calmar_sortino_sentinel_iff (rets : List ℝ) :
    (CalmarRatio rets = none ↔ |MaxDrawdown rets| ≤ 1e-8)
    ∧ (SortinoRatio rets = none ↔ downside_vol rets ≤ 1e-8) := by
  constructor
  · simp only [CalmarRatio]
    split_ifs with h
    · exact iff_of_false (by simp) (not_le.mpr h)
    · exact iff_of_true rfl (not_lt.mp h)
  · simp only [SortinoRatio]
    split_ifs with h
    · exact iff_of_false (by simp) (not_le.mpr h)
    · exact iff_of_true rfl (not_lt.mp h)

/-- C8 counterexample: on the series `[0, -1e-8]` the max drawdown is
exactly `-1e-8`, whose absolute value is NOT `< 1e-8`, yet `CalmarRatio`
returns the sentinel — the claim's strict inequality is wrong at the
boundary. -/
theorem calmar_boundary_counterexample :
    CalmarRatio [0, -(1e-8)] = none
    ∧ ¬ |MaxDrawdown [0, -(1e-8)]| < 1e-8 := by
  have hmdd : MaxDrawdown [0, -(1e-8)] = -(1e-8) := by
    simp only [MaxDrawdown, List.map_cons, List.map_nil, cumprodAux, cummaxAux,
      listMin, List.zipWith_cons_cons, List.zipWith_nil_right,
      List.foldl_cons, List.foldl_nil, max_self]
    rw [max_eq_left (by norm_num : (1 : ℝ) * (1 + 0) * (1 + -(1e-8)) ≤ 1 * (1 + 0))]
    rw [min_eq_right (by norm_num :
      ((1 : ℝ) * (1 + 0) * (1 + -(1e-8)) - 1 * (1 + 0)) / (1 * (1 + 0))
        ≤ (1 * (1 + 0) - 1 * (1 + 0)) / (1 * (1 + 0)))]
    norm_num
  have habs : |MaxDrawdown [0, -(1e-8)]| = 1e-8 := by
    rw [hmdd, abs_neg, abs_of_nonneg (by norm_num : (0 : ℝ) ≤ 1e-8)]
  constructor
  · simp only [CalmarRatio, habs]
    rw [if_neg (by norm_num)]
  · rw [habs]
    norm_num

lemma mean_example : mean [-1, 0, 1] = 0 := by
  norm_num [mean]

lemma centralMoment_two_example : centralMoment 2 [-1, 0, 1] = 2 / 3 := by
  norm_num [centralMoment, mean_example]

lemma centralMoment_three_example : centralMoment 3 [-1, 0, 1] = 0 := by
  norm_num [centralMoment, mean_example]

lemma centralMoment_four_example : centralMoment 4 [-1, 0, 1] = 2 / 3 := by
  norm_num [centralMoment, mean_example]

lemma skew_example : skew [-1, 0, 1] = 0 := by
  rw [skew, centralMoment_three_example, zero_div]

lemma kurtosis_example : kurtosis [-1, 0, 1] = -(3 / 2) := by
  rw [kurtosis, centralMoment_four_example, centralMoment_two_example]
  norm_num

/-- C1 counterexample: on the returns `[-1, 0, 1]` with `srTested = 2`,
`srBenchmark = 0` (and the external CDF instantiated to `id`), the source's
`prob_sharpe` disagrees with the spec's formula: the code multiplies the
excess-kurtosis term by `sr_tested / 4`, the spec sentence by
`sr_tested² / 4`, giving `2·√2/√(5/4)` versus `2·√2/√(3/2)`. -/
theorem prob_sharpe_formula_counterexample :
    prob_sharpe id [-1, 0, 1] 2 0 ≠ id (psr_spec_z [-1, 0, 1] 2 0) := by
  have hlen : ((([-1, 0, 1] : List ℝ).length : ℝ) - 1) = 2 := by norm_num
  have hcode : prob_sharpe id [-1, 0, 1] 2 0 = 2 * Real.sqrt 2 / Real.sqrt (5 / 4) := by
    simp only [prob_sharpe, skew_example, kurtosis_example, hlen, id_eq]
    norm_num
  have hspec : psr_spec_z [-1, 0, 1] 2 0 = 2 * Real.sqrt 2 / Real.sqrt (3 / 2) := by
    simp only [psr_spec_z, skew_example, kurtosis_example, hlen]
    norm_num
  rw [hcode, id_eq, hspec]
  have h2 : (0 : ℝ) < Real.sqrt 2 := Real.sqrt_pos.mpr (by norm_num)
  have h54 : (0 : ℝ) < Real.sqrt (5 / 4) := Real.sqrt_pos.mpr (by norm_num)
  have h32 : (0 : ℝ) < Real.sqrt (3 / 2) := Real.sqrt_pos.mpr (by norm_num)
  have hne : Real.sqrt (5 / 4) ≠ Real.sqrt (3 / 2) :=
    ne_of_lt (Real.sqrt_lt_sqrt (by norm_num) (by norm_num))
  intro h
  rw [div_eq_div_iff (ne_of_gt h54) (ne_of_gt h32)] at h
  exact hne (mul_left_cancel₀ (by positivity) h).symm

/-- C1 (amended): `prob_sharpe(r, srTested, srBenchmark)` returns
`Φ(z)` with `z = (srTested − srBenchmark)·√(n−1) /
√(1 − skew·srTested + (excess_kurtosis+3−1)·srTested/4)` — the kurtosis
term is multiplied by `srTested` to the FIRST power (the source divides
`(y4 - 1) * sr_tested` by 4, with no square). -/
theorem prob_sharpe_formula (Φ : ℝ → ℝ) (returns : List ℝ)
    (sr_tested sr_etalon : ℝ) :
    prob_sharpe Φ returns sr_tested sr_etalon
      = Φ ((sr_tested - sr_etalon) * Real.sqrt ((returns.length : ℝ) - 1)
          / Real.sqrt (1 - skew returns * sr_tested
              + (kurtosis returns + 3 - 1) * sr_tested / 4)) := rfl

lemma prob_sharpe_id_zero_tested (E : ℝ) :
    prob_sharpe id [-1, 0, 1] 0 E = -(E * Real.sqrt 2) := by
  have hlen : ((([-1, 0, 1] : List ℝ).length : ℝ) - 1) = 2 := by norm_num
  simp only [prob_sharpe, skew_example, kurtosis_example, hlen, id_eq]
  norm_num [Real.sqrt_one]

lemma stdPop_pair (a b : ℝ) :
    stdPop [a, b] = Real.sqrt ((a - b) ^ 2 / 4) := by
  simp only [stdPop, mean, List.map_cons, List.map_nil, List.sum_cons,
    List.sum_nil, List.length_cons, List.length_nil]
  congr 1
  push_cast
  ring

lemma stdSample_pair (a b : ℝ) :
    stdSample [a, b] = Real.sqrt ((a - b) ^ 2 / 2) := by
  simp only [stdSample, mean, List.map_cons, List.map_nil, List.sum_cons,
    List.sum_nil, List.length_cons, List.length_nil]
  congr 1
  push_cast
  ring

lemma sharpe_example_one : SharpeRatio [1, 3] = 730.5 / Real.sqrt 365.25 := by
  have hstd : stdPop [1, 3] = 1 := by
    rw [stdPop_pair]
    norm_num [Real.sqrt_one]
  simp only [SharpeRatio, Return, Volatility, hstd, mean, days_in_year]
  norm_num

lemma sharpe_example_two : SharpeRatio [1, 5] = 547.875 / Real.sqrt 365.25 := by
  have hstd : stdPop [1, 5] = 2 := by
    rw [stdPop_pair]
    rw [show ((1 : ℝ) - 5) ^ 2 / 4 = 2 ^ 2 by norm_num]
    exact Real.sqrt_sq (by norm_num)
  have hu0 : Real.sqrt 365.25 ≠ 0 := by positivity
  simp only [SharpeRatio, Return, Volatility, hstd, mean, days_in_year]
  rw [div_eq_div_iff (by positivity) hu0]
  norm_num
  ring

lemma stdSample_sharpes_example :
    stdSample [730.5 / Real.sqrt 365.25, 547.875 / Real.sqrt 365.25]
      = Real.sqrt (365.25 / 8) := by
  rw [stdSample_pair]
  congr 1
  rw [div_sub_div_same, div_pow, Real.sq_sqrt (by norm_num : (0 : ℝ) ≤ 365.25)]
  norm_num

/-- C2 counterexample: with the external CDF and inverse CDF both
instantiated to `id`, the ensemble `[[1, 3], [1, 5]]`, returns `[-1, 0, 1]`
and `srTested = 0`, the source's `deflated_sharpe` differs from the spec's
benchmark formula: the code DIVIDES `(1-γ)` and `γ` by the CDF values
`Φ(1-1/N)` and `Φ(1-1/(N·e))`, while the spec multiplies them by inverse-CDF
values. -/
theorem deflated_sharpe_benchmark_counterexample :
    deflated_sharpe id [-1, 0, 1] [[1, 3], [1, 5]] 0
      ≠ prob_sharpe id [-1, 0, 1] 0
          (dsr_spec_etalon (577216 * 1.0e-6) id [[1, 3], [1, 5]]) := by
  have hlen2 : ((([[1, 3], [1, 5]] : List (List ℝ)).length : ℝ)) = 2 := by norm_num
  have hcode : deflated_sharpe id [-1, 0, 1] [[1, 3], [1, 5]] 0
      = prob_sharpe id [-1, 0, 1] 0
          (Real.sqrt (365.25 / 8)
            * ((1 - 577216 * 1.0e-6) / (1 - 1 / 2)
              + 577216 * 1.0e-6 / (1 - 1 / (2 * Real.exp 1)))) := by
    simp only [deflated_sharpe, List.map_cons, List.map_nil,
      sharpe_example_one, sharpe_example_two, stdSample_sharpes_example,
      hlen2, id_eq]
  have hspec : dsr_spec_etalon (577216 * 1.0e-6) id [[1, 3], [1, 5]]
      = Real.sqrt (365.25 / 8)
          * ((1 - 577216 * 1.0e-6) * (1 - 1 / 2)
            + 577216 * 1.0e-6 * (1 - 1 / (2 * Real.exp 1))) := by
    simp only [dsr_spec_etalon, List.map_cons, List.map_nil,
      sharpe_example_one, sharpe_example_two, stdSample_sharpes_example,
      hlen2, id_eq]
  rw [hcode, hspec, prob_sharpe_id_zero_tested, prob_sharpe_id_zero_tested]
  have he : (2 : ℝ) ≤ Real.exp 1 := by
    have := Real.add_one_le_exp (1 : ℝ)
    linarith
  have hbpos : (0 : ℝ) < 1 - 1 / (2 * Real.exp 1) := by
    have h4 : (1 : ℝ) / (2 * Real.exp 1) ≤ 1 / 4 := by
      apply one_div_le_one_div_of_le <;> linarith
    linarith
  have hblt : 1 - 1 / (2 * Real.exp 1) < 1 := by
    have : (0 : ℝ) < 1 / (2 * Real.exp 1) := by positivity
    linarith
  have hX : (1 - 577216 * 1.0e-6) * (1 - 1 / 2)
      + 577216 * 1.0e-6 * (1 - 1 / (2 * Real.exp 1))
      < (1 - 577216 * 1.0e-6) / (1 - 1 / 2)
          + 577216 * 1.0e-6 / (1 - 1 / (2 * Real.exp 1)) := by
    have h1 : ((1 : ℝ) - 577216 * 1.0e-6) * (1 - 1 / 2)
        < ((1 : ℝ) - 577216 * 1.0e-6) / (1 - 1 / 2) := by
      norm_num
    have hy0 : (0 : ℝ) < 577216 * 1.0e-6 := by norm_num
    have h2a : (577216 : ℝ) * 1.0e-6 * (1 - 1 / (2 * Real.exp 1))
        < 577216 * 1.0e-6 :=
      mul_lt_of_lt_one_right hy0 hblt
    have h2 : (577216 : ℝ) * 1.0e-6
        < 577216 * 1.0e-6 / (1 - 1 / (2 * Real.exp 1)) :=
      (lt_div_iff₀ hbpos).mpr h2a
    linarith
  have hE : Real.sqrt (365.25 / 8)
        * ((1 - 577216 * 1.0e-6) * (1 - 1 / 2)
          + 577216 * 1.0e-6 * (1 - 1 / (2 * Real.exp 1)))
      < Real.sqrt (365.25 / 8)
        * ((1 - 577216 * 1.0e-6) / (1 - 1 / 2)
          + 577216 * 1.0e-6 / (1 - 1 / (2 * Real.exp 1))) :=
    mul_lt_mul_of_pos_left hX (Real.sqrt_pos.mpr (by norm_num))
  have h2pos : (0 : ℝ) < Real.sqrt 2 := Real.sqrt_pos.mpr (by norm_num)
  intro h
  rw [neg_inj] at h
  exact absurd (mul_right_cancel₀ (ne_of_gt h2pos) h) (ne_of_gt hE)

/-- C2 (amended): `deflated_sharpe` computes the benchmark as
`srStd · ((1−γ)/Φ(1−1/N) + γ/Φ(1−1/(N·e)))` — dividing by CDF evaluations
instead of multiplying by inverse-CDF values — with `γ = 0.577216` (the
source's float rounding of the Euler–Mascheroni constant) and `srStd` the
sample (ddof = 1) standard deviation of the ensemble's annualized Sharpe
ratios, and then returns `prob_sharpe(r, srTested, srBenchmark)`. -/
theorem deflated_sharpe_formula (Φ : ℝ → ℝ) (returns : List ℝ)
    (bagging : List (List ℝ)) (sr_tested : ℝ) :
    deflated_sharpe Φ returns bagging sr_tested
      = prob_sharpe Φ returns sr_tested
          (stdSample (bagging.map SharpeRatio)
            * ((1 - 577216 * 1.0e-6) / Φ (1 - 1 / (bagging.length : ℝ))
              + 577216 * 1.0e-6 / Φ (1 - 1 / ((bagging.length : ℝ) * Real.exp 1)))) := rfl

end Backtesters

namespace Downloader

lemma processKlines_high_low (ks : List Kline) :
    ∀ r ∈ processKlines ks, r.highV = r.openV ∧ r.lowV = r.openV := by
  intro r hr
  simp only [processKlines, sortRows, List.mem_insertionSort, List.mem_map] at hr
  obtain ⟨k, _, rfl⟩ := hr
  exact ⟨rfl, rfl⟩

lemma dedupByKeyAux_sublist {α β : Type} [DecidableEq β] (key : α → β) :
    ∀ (seen : List β) (l : List α), List.Sublist (dedupByKeyAux key seen l) l := by
  intro seen l
  induction l generalizing seen with
  | nil => simp [dedupByKeyAux]
  | cons x xs ih =>
    by_cases h : key x ∈ seen
    · simp only [dedupByKeyAux, if_pos h]
      exact (ih seen).trans (List.sublist_cons_self x xs)
    · simp only [dedupByKeyAux, if_neg h]
      exact (ih (key x :: seen)).cons₂ x

lemma dedupByKey_sublist {α β : Type} [DecidableEq β] (key : α → β) (l : List α) :
    List.Sublist (dedupByKey key l) l :=
  dedupByKeyAux_sublist key [] l

lemma dedupByKeyAux_nodup_keys {α β : Type} [DecidableEq β] (key : α → β) :
    ∀ (l : List α) (seen : List β),
      ((dedupByKeyAux key seen l).map key).Nodup
      ∧ ∀ b ∈ (dedupByKeyAux key seen l).map key, b ∉ seen := by
  intro l
  induction l with
  | nil => simp [dedupByKeyAux]
  | cons x xs ih =>
    intro seen
    by_cases h : key x ∈ seen
    · simpa only [dedupByKeyAux, if_pos h] using ih seen
    · simp only [dedupByKeyAux, if_neg h, List.map_cons, List.nodup_cons,
        List.mem_cons, forall_eq_or_imp]
      refine ⟨⟨?_, (ih (key x :: seen)).1⟩, h, ?_⟩
      · intro hmem
        exact ((ih (key x :: seen)).2 _ hmem) (List.mem_cons_self _ _)
      · intro b hb hbseen
        exact ((ih (key x :: seen)).2 b hb) (List.mem_cons_of_mem _ hbseen)

lemma dedupByKey_nodup_keys {α β : Type} [DecidableEq β] (key : α → β)
    (l : List α) : ((dedupByKey key l).map key).Nodup :=
  (dedupByKeyAux_nodup_keys key l []).1

lemma dedupByKeyAux_exists {α β : Type} [DecidableEq β] (key : α → β) :
    ∀ (l : List α) (seen : List β) (x : α), x ∈ l → key x ∉ seen →
      ∃ y ∈ dedupByKeyAux key seen l, key y = key x := by
  intro l
  induction l with
  | nil => intro seen x hx; exact absurd hx (List.not_mem_nil x)
  | cons z zs ih =>
    intro seen x hx hxs
    by_cases h : key z ∈ seen
    · simp only [dedupByKeyAux, if_pos h]
      rcases List.mem_cons.mp hx with rfl | hx2
      · exact absurd hxs (by simpa using h)
      · exact ih seen x hx2 hxs
    · simp only [dedupByKeyAux, if_neg h]
      by_cases hk : key x = key z
      · exact ⟨z, List.mem_cons_self _ _, hk.symm⟩
      · rcases List.mem_cons.mp hx with rfl | hx2
        · exact absurd rfl hk
        · obtain ⟨y, hy, hyk⟩ := ih (key z :: seen) x hx2
            (by simp [hk, hxs])
          exact ⟨y, List.mem_cons_of_mem _ hy, hyk⟩

lemma dedupByKey_exists {α β : Type} [DecidableEq β] (key : α → β)
    (l : List α) (x : α) (hx : x ∈ l) :
    ∃ y ∈ dedupByKey key l, key y = key x :=
  dedupByKeyAux_exists key l [] x hx (List.not_mem_nil _)

lemma sortRows_sorted (l : List PriceRow) : List.Pairwise rowLE (sortRows l) :=
  List.sorted_insertionSort rowLE l

lemma mem_sortRows {l : List PriceRow} {r : PriceRow} :
    r ∈ sortRows l ↔ r ∈ l := List.mem_insertionSort rowLE

lemma pairwise_lt_of_le_nodup {l : List PriceRow}
    (hle : List.Pairwise rowLE l) (hnd : (l.map (fun r => r.ts)).Nodup) :
    List.Pairwise (fun a b : PriceRow => a.ts < b.ts) l := by
  have hne : List.Pairwise (fun a b : PriceRow => a.ts ≠ b.ts) l :=
    List.pairwise_map.mp hnd
  exact (hle.and hne).imp (fun h => lt_of_le_of_ne h.1 h.2)

end Downloader

namespace Downloader

lemma mergeDedup_sorted (dfs : List (List PriceRow)) (s e : ℤ) :
    List.Pairwise (fun a b : PriceRow => a.ts < b.ts) (mergeDedup dfs s e) := by
  have hle : List.Pairwise rowLE (dedupByKey (fun r => r.ts) (sortRows dfs.flatten)) :=
    List.Pairwise.sublist (dedupByKey_sublist _ _) (sortRows_sorted _)
  have hnd : ((dedupByKey (fun r => r.ts) (sortRows dfs.flatten)).map
      (fun r => r.ts)).Nodup :=
    dedupByKey_nodup_keys _ _
  exact (pairwise_lt_of_le_nodup hle hnd).filter _

lemma mem_of_mem_mergeDedup {dfs : List (List PriceRow)} {s e : ℤ}
    {r : PriceRow} (hr : r ∈ mergeDedup dfs s e) : r ∈ dfs.flatten := by
  have h1 := List.mem_of_mem_filter hr
  exact mem_sortRows.mp ((dedupByKey_sublist _ _).mem h1)

lemma mergeDedup_mem_range {dfs : List (List PriceRow)} {s e : ℤ}
    {r : PriceRow} (hr : r ∈ mergeDedup dfs s e) : s ≤ r.ts ∧ r.ts ≤ e := by
  have := List.of_mem_filter hr
  simpa using this

lemma mem_ts_unique :
    ∀ (l : List PriceRow), List.Pairwise (fun a b : PriceRow => a.ts < b.ts) l →
      ∀ r ∈ l, ∀ r2 ∈ l, r.ts = r2.ts → r = r2 := by
  intro l
  induction l with
  | nil => simp
  | cons a l ih =>
    intro hl r hr r2 hr2 hts
    have ha := (List.pairwise_cons.mp hl).1
    have htl := (List.pairwise_cons.mp hl).2
    rcases List.mem_cons.mp hr with rfl | hr3
    · rcases List.mem_cons.mp hr2 with rfl | hr4
      · rfl
      · have := ha r2 hr4
        omega
    · rcases List.mem_cons.mp hr2 with rfl | hr4
      · have := ha r hr3
        omega
      · exact ih htl r hr3 r2 hr4 hts

lemma eq_of_pairwise_lt_mem_iff :
    ∀ (l1 l2 : List PriceRow),
      List.Pairwise (fun a b : PriceRow => a.ts < b.ts) l1 →
      List.Pairwise (fun a b : PriceRow => a.ts < b.ts) l2 →
      (∀ r, r ∈ l1 ↔ r ∈ l2) → l1 = l2 := by
  intro l1
  induction l1 with
  | nil =>
    intro l2 _ _ hmem
    cases l2 with
    | nil => rfl
    | cons y ys => exact absurd ((hmem y).mpr (List.mem_cons_self y ys)) (List.not_mem_nil y)
  | cons x xs ih =>
    intro l2 h1 h2 hmem
    cases l2 with
    | nil => exact absurd ((hmem x).mp (List.mem_cons_self x xs)) (List.not_mem_nil x)
    | cons y ys =>
      have hxy : x = y := by
        have hx2 : x ∈ y :: ys := (hmem x).mp (List.mem_cons_self x xs)
        have hy1 : y ∈ x :: xs := (hmem y).mpr (List.mem_cons_self y ys)
        rcases List.mem_cons.mp hx2 with rfl | hx2
        · rfl
        rcases List.mem_cons.mp hy1 with h | hy1
        · exact h.symm
        · have hlt1 : y.ts < x.ts := (List.pairwise_cons.mp h2).1 x hx2
          have hlt2 : x.ts < y.ts := (List.pairwise_cons.mp h1).1 y hy1
          exact absurd (lt_trans hlt1 hlt2) (lt_irrefl _)
      subst hxy
      have htail : ∀ r, r ∈ xs ↔ r ∈ ys := by
        intro r
        constructor
        · intro hr
          rcases List.mem_cons.mp ((hmem r).mp (List.mem_cons_of_mem x hr)) with rfl | h
          · exact absurd ((List.pairwise_cons.mp h1).1 r hr) (lt_irrefl _)
          · exact h
        · intro hr
          rcases List.mem_cons.mp ((hmem r).mpr (List.mem_cons_of_mem x hr)) with rfl | h
          · exact absurd ((List.pairwise_cons.mp h2).1 r hr) (lt_irrefl _)
          · exact h
      rw [ih ys (List.pairwise_cons.mp h1).2 (List.pairwise_cons.mp h2).2 htail]

lemma mem_mergeDedup_of_mem {dfs : List (List PriceRow)} {s e : ℤ}
    {r : PriceRow} (hall : r ∈ dfs.flatten)
    (hkeep : ∀ r2 ∈ dfs.flatten, r2.ts = r.ts → r2 = r)
    (hs : s ≤ r.ts) (he : r.ts ≤ e) : r ∈ mergeDedup dfs s e := by
  have hfull : r ∈ sortRows dfs.flatten := mem_sortRows.mpr hall
  obtain ⟨y, hy, hyk⟩ := dedupByKey_exists (fun r => r.ts) _ r hfull
  have hyfl : y ∈ dfs.flatten := mem_sortRows.mp ((dedupByKey_sublist _ _).mem hy)
  have hyr : y = r := hkeep y hyfl hyk
  subst hyr
  refine List.mem_filter.mpr ⟨hy, ?_⟩
  simp [hs, he]

/-- C7: Merge & Dedup is idempotent — for a table that is already strictly
sorted by timestamp (hence duplicate-free) and lies inside the trim window,
concatenating it with itself, sorting, deduplicating keeping the first
occurrence and trimming to `[s, e]` returns exactly the same table. -/
theorem mergeDedup_idempotent (t : List PriceRow) (s e : ℤ)
    (hsorted : List.Pairwise (fun a b : PriceRow => a.ts < b.ts) t)
    (hrange : ∀ r ∈ t, s ≤ r.ts ∧ r.ts ≤ e) :
    mergeDedup [t, t] s e = t := by
  apply eq_of_pairwise_lt_mem_iff _ _ (mergeDedup_sorted _ _ _) hsorted
  intro r
  constructor
  · intro hr
    have := mem_of_mem_mergeDedup hr
    simpa using this
  · intro hr
    apply mem_mergeDedup_of_mem (by simp [hr]) _ (hrange r hr).1 (hrange r hr).2
    intro r2 hr2 hts
    have hr2t : r2 ∈ t := by simpa using hr2
    exact mem_ts_unique t hsorted r2 hr2t r hr hts

/-- Witness for C7 on a concrete two-row table inside the window `[0, 10]`. -/
theorem mergeDedup_idempotent_witness :
    List.Pairwise (fun a b : PriceRow => a.ts < b.ts)
        [⟨1, 2, 2, 2, 3, 4, 5⟩, ⟨2, 6, 6, 6, 7, 8, 9⟩]
    ∧ (∀ r ∈ ([⟨1, 2, 2, 2, 3, 4, 5⟩, ⟨2, 6, 6, 6, 7, 8, 9⟩] : List PriceRow),
        (0 : ℤ) ≤ r.ts ∧ r.ts ≤ 10)
    ∧ mergeDedup [[⟨1, 2, 2, 2, 3, 4, 5⟩, ⟨2, 6, 6, 6, 7, 8, 9⟩],
        [⟨1, 2, 2, 2, 3, 4, 5⟩, ⟨2, 6, 6, 6, 7, 8, 9⟩]] 0 10
      = [⟨1, 2, 2, 2, 3, 4, 5⟩, ⟨2, 6, 6, 6, 7, 8, 9⟩] :=
  ⟨by decide, by decide,
    mergeDedup_idempotent _ 0 10 (by decide) (by decide)⟩

end Downloader

namespace Downloader

lemma full_period_invariant (dfs : List (List PriceRow)) (s e : ℤ) :
    List.Pairwise (fun a b : PriceRow => a.ts < b.ts)
        (if dfs = [] then [] else mergeDedup dfs s e)
    ∧ ∀ r ∈ (if dfs = [] then [] else mergeDedup dfs s e),
        s ≤ r.ts ∧ r.ts ≤ e := by
  split_ifs
  · simp
  · exact ⟨mergeDedup_sorted dfs s e, fun r hr => mergeDedup_mem_range hr⟩

/-- C5: for every valid window `s < e` and every behaviour of the page
fetchers, the spot and futures backfills return tables whose timestamps
are strictly increasing (hence unique) and lie within `[s, e]` inclusive. -/
theorem backfill_sorted_unique_within_range (fetchS fetchF : ℤ → FetchOutcome)
    (s e : ℤ) (h : s < e) :
    (List.Pairwise (fun a b : PriceRow => a.ts < b.ts)
        (get_spot_data_bybit_full_period fetchS s e)
      ∧ ∀ r ∈ get_spot_data_bybit_full_period fetchS s e, s ≤ r.ts ∧ r.ts ≤ e)
    ∧ (List.Pairwise (fun a b : PriceRow => a.ts < b.ts)
        (get_future_data_bybit_full_period fetchF s e)
      ∧ ∀ r ∈ get_future_data_bybit_full_period fetchF s e, s ≤ r.ts ∧ r.ts ≤ e) := by
  constructor
  · simpa only [get_spot_data_bybit_full_period] using
      full_period_invariant
        (pagedWalk (fun cEnd => get_spot_prices_bybit (fetchS cEnd)) s e []) s e
  · simpa only [get_future_data_bybit_full_period] using
      full_period_invariant
        (pagedWalk (fun cEnd => get_future_price_bybit (fetchF cEnd)) s e []) s e

/-- Witness for C5 with the always-empty fetcher on the window `[0, 100]`. -/
theorem backfill_sorted_unique_within_range_witness :
    (0 : ℤ) < 100
    ∧ ((List.Pairwise (fun a b : PriceRow => a.ts < b.ts)
          (get_spot_data_bybit_full_period (fun _ => FetchOutcome.ok []) 0 100)
        ∧ ∀ r ∈ get_spot_data_bybit_full_period (fun _ => FetchOutcome.ok []) 0 100,
            (0 : ℤ) ≤ r.ts ∧ r.ts ≤ 100)
      ∧ (List.Pairwise (fun a b : PriceRow => a.ts < b.ts)
          (get_future_data_bybit_full_period (fun _ => FetchOutcome.ok []) 0 100)
        ∧ ∀ r ∈ get_future_data_bybit_full_period (fun _ => FetchOutcome.ok []) 0 100,
            (0 : ℤ) ≤ r.ts ∧ r.ts ≤ 100)) :=
  ⟨by norm_num,
    backfill_sorted_unique_within_range (fun _ => FetchOutcome.ok [])
      (fun _ => FetchOutcome.ok []) 0 100 (by norm_num)⟩

end Downloader

namespace Downloader

lemma pagedWalk_eq (page_of : ℤ → List PriceRow) (s cE : ℤ)
    (acc : List (List PriceRow)) :
    pagedWalk page_of s cE acc =
      if page_of cE = [] then acc
      else
        if (page_of cE).filter (fun r => decide (s ≤ r.ts)) = [] then acc
        else
          if firstTs ((page_of cE).filter (fun r => decide (s ≤ r.ts))) ≤ s then
            acc ++ [(page_of cE).filter (fun r => decide (s ≤ r.ts))]
          else
            if 10000 < (acc ++ [(page_of cE).filter (fun r => decide (s ≤ r.ts))]).length then
              acc ++ [(page_of cE).filter (fun r => decide (s ≤ r.ts))]
            else
              pagedWalk page_of s
                (firstTs ((page_of cE).filter (fun r => decide (s ≤ r.ts))) - 1)
                (acc ++ [(page_of cE).filter (fun r => decide (s ≤ r.ts))]) := by
  conv_lhs => unfold pagedWalk

lemma pagedWalk_mem (page_of : ℤ → List PriceRow) (s : ℤ) :
    ∀ (n : ℕ) (cE : ℤ) (acc : List (List PriceRow)) (p : List PriceRow),
      10001 - acc.length ≤ n →
      p ∈ pagedWalk page_of s cE acc →
      p ∈ acc ∨ ∃ cE2, p = (page_of cE2).filter (fun r => decide (s ≤ r.ts)) := by
  intro n
  induction n with
  | zero =>
    intro cE acc p hn hp
    rw [pagedWalk_eq] at hp
    split_ifs at hp with h1 h2 h3 h4
    · exact Or.inl hp
    · exact Or.inl hp
    · rcases List.mem_append.mp hp with h | h
      · exact Or.inl h
      · exact Or.inr ⟨cE, by simpa using h⟩
    · rcases List.mem_append.mp hp with h | h
      · exact Or.inl h
      · exact Or.inr ⟨cE, by simpa using h⟩
    · exfalso
      simp only [List.length_append, List.length_cons, List.length_nil] at h4
      omega
  | succ n ih =>
    intro cE acc p hn hp
    rw [pagedWalk_eq] at hp
    split_ifs at hp with h1 h2 h3 h4
    · exact Or.inl hp
    · exact Or.inl hp
    · rcases List.mem_append.mp hp with h | h
      · exact Or.inl h
      · exact Or.inr ⟨cE, by simpa using h⟩
    · rcases List.mem_append.mp hp with h | h
      · exact Or.inl h
      · exact Or.inr ⟨cE, by simpa using h⟩
    · have hlen : (acc ++ [(page_of cE).filter (fun r => decide (s ≤ r.ts))]).length
          = acc.length + 1 := by simp
      have hrec := ih _ _ p (by omega) hp
      rcases hrec with h | h
      · rcases List.mem_append.mp h with h5 | h5
        · exact Or.inl h5
        · exact Or.inr ⟨cE, by simpa using h5⟩
      · exact Or.inr h

lemma pagedWalk_mem_top (page_of : ℤ → List PriceRow) (s cE : ℤ)
    (acc : List (List PriceRow)) (p : List PriceRow)
    (hp : p ∈ pagedWalk page_of s cE acc) :
    p ∈ acc ∨ ∃ cE2, p = (page_of cE2).filter (fun r => decide (s ≤ r.ts)) :=
  pagedWalk_mem page_of s (10001 - acc.length) cE acc p le_rfl hp

lemma pagedWalk_cap (page_of : ℤ → List PriceRow) (s : ℤ)
    (hpage : ∀ cE, page_of cE ≠ [])
    (hkept : ∀ cE, (page_of cE).filter (fun r => decide (s ≤ r.ts)) ≠ [])
    (hfirst : ∀ cE, s < firstTs ((page_of cE).filter (fun r => decide (s ≤ r.ts)))) :
    ∀ (n : ℕ) (cE : ℤ) (acc : List (List PriceRow)),
      acc.length ≤ 10000 → 10001 - acc.length ≤ n →
      (pagedWalk page_of s cE acc).length = 10001 := by
  intro n
  induction n with
  | zero =>
    intro cE acc hcap hn
    omega
  | succ n ih =>
    intro cE acc hcap hn
    rw [pagedWalk_eq]
    rw [if_neg (hpage cE), if_neg (hkept cE), if_neg (not_le.mpr (hfirst cE))]
    have hlen : (acc ++ [(page_of cE).filter (fun r => decide (s ≤ r.ts))]).length
        = acc.length + 1 := by simp
    by_cases hc : 10000 < acc.length + 1
    · rw [if_pos (by omega : 10000 < (acc ++ [(page_of cE).filter (fun r => decide (s ≤ r.ts))]).length)]
      omega
    · rw [if_neg (by omega : ¬ 10000 < (acc ++ [(page_of cE).filter (fun r => decide (s ≤ r.ts))]).length)]
      exact ih _ _ (by omega) (by omega)

end Downloader

namespace Downloader

lemma fundingWalk_none (fetch : ℤ → Option (List FundingRate)) (s : ℤ)
    (h : ∀ cE, ∃ rates, fetch cE = some rates ∧ rates ≠ [] ∧ s < minTs rates) :
    ∀ (fuel : ℕ) (cE : ℤ) (acc : List FundingRate),
      fundingWalk fetch s fuel cE acc = none := by
  intro fuel
  induction fuel with
  | zero => intro cE acc; rfl
  | succ n ih =>
    intro cE acc
    obtain ⟨rates, hf, hne, hmin⟩ := h cE
    cases rates with
    | nil => exact absurd rfl hne
    | cons r rs =>
      simp only [fundingWalk, hf]
      rw [if_neg (not_le.mpr hmin)]
      exact ih _ _

/-- C3 (amended): when the page fetcher never reaches the requested start
(pages are always nonempty, survive the `index >= start` filter, and their
earliest timestamp stays strictly above `s`), no `NonConvergenceError` (or
any other exception) is raised.  The spot and futures loops stop through
the `len(all_dfs) > 10_000` check, which — being tested after the append —
fires once 10001 pages have accumulated, and the merged PARTIAL table is
returned as a normal result.  The funding loop has no iteration cap at all
and never terminates on such a fetcher. -/
theorem nonconvergence_cap_behaviour
    (fetchS fetchF : ℤ → FetchOutcome)
    (fundFetch : ℤ → Option (List FundingRate)) (s e : ℤ)
    (hS : ∀ cE, get_spot_prices_bybit (fetchS cE) ≠ []
      ∧ (get_spot_prices_bybit (fetchS cE)).filter (fun r => decide (s ≤ r.ts)) ≠ []
      ∧ s < firstTs ((get_spot_prices_bybit (fetchS cE)).filter (fun r => decide (s ≤ r.ts))))
    (hF : ∀ cE, get_future_price_bybit (fetchF cE) ≠ []
      ∧ (get_future_price_bybit (fetchF cE)).filter (fun r => decide (s ≤ r.ts)) ≠ []
      ∧ s < firstTs ((get_future_price_bybit (fetchF cE)).filter (fun r => decide (s ≤ r.ts))))
    (hfund : ∀ cE, ∃ rates, fundFetch cE = some rates ∧ rates ≠ [] ∧ s < minTs rates) :
    (pagedWalk (fun cE => get_spot_prices_bybit (fetchS cE)) s e []).length = 10001
    ∧ get_spot_data_bybit_full_period fetchS s e
        = mergeDedup (pagedWalk (fun cE => get_spot_prices_bybit (fetchS cE)) s e []) s e
    ∧ (pagedWalk (fun cE => get_future_price_bybit (fetchF cE)) s e []).length = 10001
    ∧ get_future_data_bybit_full_period fetchF s e
        = mergeDedup (pagedWalk (fun cE => get_future_price_bybit (fetchF cE)) s e []) s e
    ∧ ∀ (fuel : ℕ) (cE : ℤ) (acc : List FundingRate),
        fundingWalk fundFetch s fuel cE acc = none := by
  have hSlen : (pagedWalk (fun cE => get_spot_prices_bybit (fetchS cE)) s e []).length = 10001 :=
    pagedWalk_cap _ s (fun cE => (hS cE).1) (fun cE => (hS cE).2.1)
      (fun cE => (hS cE).2.2) 10001 e [] (by simp) (by simp)
  have hFlen : (pagedWalk (fun cE => get_future_price_bybit (fetchF cE)) s e []).length = 10001 :=
    pagedWalk_cap _ s (fun cE => (hF cE).1) (fun cE => (hF cE).2.1)
      (fun cE => (hF cE).2.2) 10001 e [] (by simp) (by simp)
  refine ⟨hSlen, ?_, hFlen, ?_, fundingWalk_none fundFetch s hfund⟩
  · simp only [get_spot_data_bybit_full_period]
    rw [if_neg (fun hnil => by rw [hnil] at hSlen; simp at hSlen)]
  · simp only [get_future_data_bybit_full_period]
    rw [if_neg (fun hnil => by rw [hnil] at hFlen; simp at hFlen)]

/-- C3 counterexample: with a concrete spot page fetcher that always
returns the single record at timestamp 1 (never reaching `start = 0`), the
loop collects exactly 10001 pages — not 10000 — and the backfill returns a
nonempty partial table instead of raising a `NonConvergenceError`. -/
theorem nonconvergence_cap_counterexample :
    (pagedWalk (fun cE => get_spot_prices_bybit
        ((fun _ : ℤ => FetchOutcome.ok [⟨1, 1, 1, 1, 1, 1, 1⟩]) cE)) 0 100 []).length = 10001
    ∧ (10001 : ℕ) ≠ 10000
    ∧ get_spot_data_bybit_full_period
        (fun _ : ℤ => FetchOutcome.ok [⟨1, 1, 1, 1, 1, 1, 1⟩]) 0 100 ≠ [] := by
  have hp1 : get_spot_prices_bybit (FetchOutcome.ok [⟨1, 1, 1, 1, 1, 1, 1⟩]) ≠ [] := by
    decide
  have hp2 : (get_spot_prices_bybit (FetchOutcome.ok [⟨1, 1, 1, 1, 1, 1, 1⟩])).filter
      (fun r => decide ((0 : ℤ) ≤ r.ts)) = [(⟨1, 1, 1, 1, 1, 1, 1⟩ : PriceRow)] := by
    decide
  have hp3 : (get_spot_prices_bybit (FetchOutcome.ok [⟨1, 1, 1, 1, 1, 1, 1⟩])).filter
      (fun r => decide ((0 : ℤ) ≤ r.ts)) ≠ [] := by
    decide
  have hp4 : (0 : ℤ) < firstTs ((get_spot_prices_bybit
      (FetchOutcome.ok [⟨1, 1, 1, 1, 1, 1, 1⟩])).filter
        (fun r => decide ((0 : ℤ) ≤ r.ts))) := by
    decide
  have hpage : ∀ cE2 : ℤ,
      (get_spot_prices_bybit ((fun _ : ℤ => FetchOutcome.ok [⟨1, 1, 1, 1, 1, 1, 1⟩]) cE2)).filter
          (fun r => decide ((0 : ℤ) ≤ r.ts))
        = [(⟨1, 1, 1, 1, 1, 1, 1⟩ : PriceRow)] := fun _ => hp2
  have hlen : (pagedWalk (fun cE => get_spot_prices_bybit
      ((fun _ : ℤ => FetchOutcome.ok [⟨1, 1, 1, 1, 1, 1, 1⟩]) cE)) 0 100 []).length = 10001 :=
    pagedWalk_cap _ 0 (fun _ => hp1) (fun _ => hp3)
      (fun _ => hp4) 10001 100 [] (by simp) (by simp)
  refine ⟨hlen, by norm_num, ?_⟩
  set dfs := pagedWalk (fun cE => get_spot_prices_bybit
      ((fun _ : ℤ => FetchOutcome.ok [⟨1, 1, 1, 1, 1, 1, 1⟩]) cE)) 0 100 [] with hdfs
  have hne : dfs ≠ [] := fun hnil => by rw [hnil] at hlen; simp at hlen
  have hpages : ∀ p ∈ dfs, p = [(⟨1, 1, 1, 1, 1, 1, 1⟩ : PriceRow)] := by
    intro p hp
    rcases pagedWalk_mem_top _ _ _ _ _ hp with h | ⟨cE2, h⟩
    · exact absurd h (List.not_mem_nil p)
    · rw [h, hpage cE2]
  have hmemflat : (⟨1, 1, 1, 1, 1, 1, 1⟩ : PriceRow) ∈ dfs.flatten := by
    obtain ⟨p, hp⟩ := List.exists_mem_of_ne_nil dfs hne
    exact List.mem_flatten.mpr ⟨p, hp, by rw [hpages p hp]; exact List.mem_cons_self _ _⟩
  have hmem : (⟨1, 1, 1, 1, 1, 1, 1⟩ : PriceRow) ∈ mergeDedup dfs 0 100 := by
    apply mem_mergeDedup_of_mem hmemflat _ (by decide) (by decide)
    intro r2 hr2 hts
    obtain ⟨p2, hp2, hr2p⟩ := List.mem_flatten.mp hr2
    rw [hpages p2 hp2] at hr2p
    simpa using hr2p
  simp only [get_spot_data_bybit_full_period]
  rw [if_neg hne]
  exact List.ne_nil_of_mem hmem

/-- Witness for C3 at concrete never-converging stubs on `[0, 100]`. -/
theorem nonconvergence_cap_behaviour_witness :
    (∀ cE : ℤ, get_spot_prices_bybit
        ((fun _ : ℤ => FetchOutcome.ok [⟨2, 1, 1, 1, 1, 1, 1⟩]) cE) ≠ []
      ∧ (get_spot_prices_bybit ((fun _ : ℤ => FetchOutcome.ok [⟨2, 1, 1, 1, 1, 1, 1⟩]) cE)).filter
          (fun r => decide ((0 : ℤ) ≤ r.ts)) ≠ []
      ∧ (0 : ℤ) < firstTs ((get_spot_prices_bybit
          ((fun _ : ℤ => FetchOutcome.ok [⟨2, 1, 1, 1, 1, 1, 1⟩]) cE)).filter
            (fun r => decide ((0 : ℤ) ≤ r.ts))))
    ∧ ((pagedWalk (fun cE => get_spot_prices_bybit
          ((fun _ : ℤ => FetchOutcome.ok [⟨2, 1, 1, 1, 1, 1, 1⟩]) cE)) 0 100 []).length = 10001
      ∧ get_spot_data_bybit_full_period
            (fun _ : ℤ => FetchOutcome.ok [⟨2, 1, 1, 1, 1, 1, 1⟩]) 0 100
          = mergeDedup (pagedWalk (fun cE => get_spot_prices_bybit
              ((fun _ : ℤ => FetchOutcome.ok [⟨2, 1, 1, 1, 1, 1, 1⟩]) cE)) 0 100 []) 0 100
      ∧ (pagedWalk (fun cE => get_future_price_bybit
          ((fun _ : ℤ => FetchOutcome.ok [⟨2, 1, 1, 1, 1, 1, 1⟩]) cE)) 0 100 []).length = 10001
      ∧ get_future_data_bybit_full_period
            (fun _ : ℤ => FetchOutcome.ok [⟨2, 1, 1, 1, 1, 1, 1⟩]) 0 100
          = mergeDedup (pagedWalk (fun cE => get_future_price_bybit
              ((fun _ : ℤ => FetchOutcome.ok [⟨2, 1, 1, 1, 1, 1, 1⟩]) cE)) 0 100 []) 0 100
      ∧ ∀ (fuel : ℕ) (cE : ℤ) (acc : List FundingRate),
          fundingWalk (fun _ : ℤ => some [⟨5, 0⟩]) 0 fuel cE acc = none) := by
  have h1 : get_spot_prices_bybit (FetchOutcome.ok [⟨2, 1, 1, 1, 1, 1, 1⟩]) ≠ [] := by
    decide
  have h2 : (get_spot_prices_bybit (FetchOutcome.ok [⟨2, 1, 1, 1, 1, 1, 1⟩])).filter
      (fun r => decide ((0 : ℤ) ≤ r.ts)) ≠ [] := by
    decide
  have h3 : (0 : ℤ) < firstTs ((get_spot_prices_bybit
      (FetchOutcome.ok [⟨2, 1, 1, 1, 1, 1, 1⟩])).filter
        (fun r => decide ((0 : ℤ) ≤ r.ts))) := by
    decide
  have hr1 : ([(⟨5, 0⟩ : FundingRate)] : List FundingRate) ≠ [] := by decide
  have hr2 : (0 : ℤ) < minTs [⟨5, 0⟩] := by decide
  exact ⟨fun cE => ⟨h1, h2, h3⟩,
    nonconvergence_cap_behaviour
      (fun _ => FetchOutcome.ok [⟨2, 1, 1, 1, 1, 1, 1⟩])
      (fun _ => FetchOutcome.ok [⟨2, 1, 1, 1, 1, 1, 1⟩])
      (fun _ => some [⟨5, 0⟩]) 0 100
      (fun cE => ⟨h1, h2, h3⟩)
      (fun cE => ⟨h1, h2, h3⟩)
      (fun cE => ⟨[⟨5, 0⟩], rfl, hr1, hr2⟩)⟩

end Downloader

namespace Downloader

/-- C4 (amended): a transport/protocol failure or a source-reported error
code on a page request is CAUGHT inside the page fetcher, which prints and
returns an empty frame (lines 117-123 / 385-391); the backfill loop then
treats it exactly like end-of-data: it stops and returns the pages
accumulated so far (merged into a possibly-partial table).  No fetch error
is propagated to the caller. -/
theorem fetch_error_swallowed (rawSpot rawFut : ℤ → FetchOutcome)
    (s cE : ℤ) (acc : List (List PriceRow))
    (hs : rawSpot cE = FetchOutcome.transportError ∨ rawSpot cE = FetchOutcome.apiError)
    (hf : rawFut cE = FetchOutcome.transportError ∨ rawFut cE = FetchOutcome.apiError) :
    get_spot_prices_bybit (rawSpot cE) = []
    ∧ get_future_price_bybit (rawFut cE) = []
    ∧ pagedWalk (fun x => get_spot_prices_bybit (rawSpot x)) s cE acc = acc
    ∧ pagedWalk (fun x => get_future_price_bybit (rawFut x)) s cE acc = acc := by
  have h1 : get_spot_prices_bybit (rawSpot cE) = [] := by
    rcases hs with h | h <;> rw [h] <;> rfl
  have h2 : get_future_price_bybit (rawFut cE) = [] := by
    rcases hf with h | h <;> rw [h] <;> rfl
  refine ⟨h1, h2, ?_, ?_⟩
  · rw [pagedWalk_eq, if_pos h1]
  · rw [pagedWalk_eq, if_pos h2]

/-- C4 counterexample: a concrete fetcher that succeeds on the first page
(window end 100, one record at timestamp 50) and then fails with a
transport error on the second request (window end 49).  The backfill does
NOT abort: it returns the nonempty partial table holding the one fetched
row, indistinguishable from a successful run. -/
theorem fetch_error_partial_counterexample :
    (fun cE : ℤ => if cE = 100 then FetchOutcome.ok [⟨50, 1, 2, 3, 4, 5, 6⟩]
        else FetchOutcome.transportError) 49 = FetchOutcome.transportError
    ∧ get_spot_data_bybit_full_period
        (fun cE : ℤ => if cE = 100 then FetchOutcome.ok [⟨50, 1, 2, 3, 4, 5, 6⟩]
          else FetchOutcome.transportError) 0 100
      = [⟨50, 1, 1, 1, 4, 5, 6⟩] := by
  constructor
  · simp
  · simp only [get_spot_data_bybit_full_period]
    set F := fun cEnd : ℤ => get_spot_prices_bybit
        (if cEnd = 100 then FetchOutcome.ok [⟨50, 1, 2, 3, 4, 5, 6⟩]
          else FetchOutcome.transportError) with hF
    have h100 : F 100 = [(⟨50, 1, 1, 1, 4, 5, 6⟩ : PriceRow)] := by
      rw [hF]; decide
    have h49 : F 49 = [] := by
      rw [hF]; decide
    have hdfs : pagedWalk F 0 100 [] = [[(⟨50, 1, 1, 1, 4, 5, 6⟩ : PriceRow)]] := by
      rw [pagedWalk_eq, h100]
      rw [if_neg (by decide : ¬ ([(⟨50, 1, 1, 1, 4, 5, 6⟩ : PriceRow)] = []))]
      rw [(by decide : ([(⟨50, 1, 1, 1, 4, 5, 6⟩ : PriceRow)]).filter
          (fun r => decide ((0 : ℤ) ≤ r.ts)) = [(⟨50, 1, 1, 1, 4, 5, 6⟩ : PriceRow)])]
      rw [if_neg (by decide : ¬ ([(⟨50, 1, 1, 1, 4, 5, 6⟩ : PriceRow)] = []))]
      rw [if_neg (by decide : ¬ (firstTs [(⟨50, 1, 1, 1, 4, 5, 6⟩ : PriceRow)] ≤ 0))]
      rw [if_neg (by decide : ¬ (10000 < (([] : List (List PriceRow))
          ++ [[(⟨50, 1, 1, 1, 4, 5, 6⟩ : PriceRow)]]).length))]
      rw [(by decide : firstTs [(⟨50, 1, 1, 1, 4, 5, 6⟩ : PriceRow)] - 1 = (49 : ℤ))]
      rw [(rfl : ([] : List (List PriceRow)) ++ [[(⟨50, 1, 1, 1, 4, 5, 6⟩ : PriceRow)]]
          = [[(⟨50, 1, 1, 1, 4, 5, 6⟩ : PriceRow)]])]
      rw [pagedWalk_eq, h49]
      rw [if_pos (rfl : ([] : List PriceRow) = [])]
      rfl
    rw [hdfs]
    rw [if_neg (by decide : ¬ (([[(⟨50, 1, 1, 1, 4, 5, 6⟩ : PriceRow)]] : List (List PriceRow)) = []))]
    decide

/-- Witness for C4 with the always-failing fetchers. -/
theorem fetch_error_swallowed_witness :
    ((fun _ : ℤ => FetchOutcome.transportError) 7 = FetchOutcome.transportError
      ∨ (fun _ : ℤ => FetchOutcome.transportError) 7 = FetchOutcome.apiError)
    ∧ ((fun _ : ℤ => FetchOutcome.apiError) 7 = FetchOutcome.transportError
      ∨ (fun _ : ℤ => FetchOutcome.apiError) 7 = FetchOutcome.apiError)
    ∧ (get_spot_prices_bybit ((fun _ : ℤ => FetchOutcome.transportError) 7) = []
      ∧ get_future_price_bybit ((fun _ : ℤ => FetchOutcome.apiError) 7) = []
      ∧ pagedWalk (fun x => get_spot_prices_bybit
          ((fun _ : ℤ => FetchOutcome.transportError) x)) 0 7 [] = []
      ∧ pagedWalk (fun x => get_future_price_bybit
          ((fun _ : ℤ => FetchOutcome.apiError) x)) 0 7 [] = []) :=
  ⟨Or.inl rfl, Or.inr rfl,
    fetch_error_swallowed (fun _ => FetchOutcome.transportError)
      (fun _ => FetchOutcome.apiError) 0 7 [] (Or.inl rfl) (Or.inr rfl)⟩

/-- C9: in every page assembled by the spot and futures page fetchers the
`{col_name}_high` and `{col_name}_low` columns are assigned from the
source's `open` column (lines 108-110 and 376-378); consequently every row
of every backfilled table has `high = low = open`, whatever high/low values
the source reported. -/
theorem high_low_assigned_from_open
    (outS outF : FetchOutcome) (fS fF : ℤ → FetchOutcome) (s e : ℤ) :
    (∀ r ∈ get_spot_prices_bybit outS, r.highV = r.openV ∧ r.lowV = r.openV)
    ∧ (∀ r ∈ get_future_price_bybit outF, r.highV = r.openV ∧ r.lowV = r.openV)
    ∧ (∀ r ∈ get_spot_data_bybit_full_period fS s e,
        r.highV = r.openV ∧ r.lowV = r.openV)
    ∧ (∀ r ∈ get_future_data_bybit_full_period fF s e,
        r.highV = r.openV ∧ r.lowV = r.openV) := by
  have hout : ∀ out : FetchOutcome, ∀ r ∈ get_spot_prices_bybit out,
      r.highV = r.openV ∧ r.lowV = r.openV := by
    intro out
    cases out with
    | transportError => simp [get_spot_prices_bybit]
    | apiError => simp [get_spot_prices_bybit]
    | ok ks => exact processKlines_high_low ks
  have hout2 : ∀ out : FetchOutcome, ∀ r ∈ get_future_price_bybit out,
      r.highV = r.openV ∧ r.lowV = r.openV := by
    intro out
    cases out with
    | transportError => simp [get_future_price_bybit]
    | apiError => simp [get_future_price_bybit]
    | ok ks => exact processKlines_high_low ks
  have hfull : ∀ (page_of : ℤ → List PriceRow),
      (∀ cE, ∀ r ∈ page_of cE, r.highV = r.openV ∧ r.lowV = r.openV) →
      ∀ r ∈ (if pagedWalk page_of s e [] = [] then []
          else mergeDedup (pagedWalk page_of s e []) s e),
        r.highV = r.openV ∧ r.lowV = r.openV := by
    intro page_of hpage r hr
    split_ifs at hr with hnil
    · exact absurd hr (List.not_mem_nil r)
    · have hflat := mem_of_mem_mergeDedup hr
      obtain ⟨p, hp, hrp⟩ := List.mem_flatten.mp hflat
      rcases pagedWalk_mem_top _ _ _ _ _ hp with h | ⟨cE2, h⟩
      · exact absurd h (List.not_mem_nil p)
      · rw [h] at hrp
        exact hpage cE2 r (List.mem_of_mem_filter hrp)
  refine ⟨hout outS, hout2 outF, ?_, ?_⟩
  · simpa only [get_spot_data_bybit_full_period] using
      hfull (fun cEnd => get_spot_prices_bybit (fS cEnd)) (fun cE => hout (fS cE))
  · simpa only [get_future_data_bybit_full_period] using
      hfull (fun cEnd => get_future_price_bybit (fF cEnd)) (fun cE => hout2 (fF cE))

/-- Witness for C9: the fetched page reports `high = 2` and `low = 3`, yet
the assembled row carries `high = low = open = 1`. -/
theorem high_low_assigned_from_open_witness :
    ((⟨50, 1, 1, 1, 4, 5, 6⟩ : PriceRow)
        ∈ get_spot_prices_bybit (FetchOutcome.ok [⟨50, 1, 2, 3, 4, 5, 6⟩])
      → (⟨50, 1, 1, 1, 4, 5, 6⟩ : PriceRow).highV
            = (⟨50, 1, 1, 1, 4, 5, 6⟩ : PriceRow).openV
        ∧ (⟨50, 1, 1, 1, 4, 5, 6⟩ : PriceRow).lowV
            = (⟨50, 1, 1, 1, 4, 5, 6⟩ : PriceRow).openV)
    ∧ (⟨50, 1, 1, 1, 4, 5, 6⟩ : PriceRow)
        ∈ get_spot_prices_bybit (FetchOutcome.ok [⟨50, 1, 2, 3, 4, 5, 6⟩]) :=
  ⟨fun hmem => (high_low_assigned_from_open
      (FetchOutcome.ok [⟨50, 1, 2, 3, 4, 5, 6⟩])
      (FetchOutcome.ok [⟨50, 1, 2, 3, 4, 5, 6⟩])
      (fun _ => FetchOutcome.ok []) (fun _ => FetchOutcome.ok []) 0 100).1
      _ hmem,
    by decide⟩

end Downloader

namespace Downloader

lemma floorHour_multiple (m : ℤ) : floorHour (hourMs * m) = hourMs * m := by
  rw [floorHour, (show (hourMs * m).ediv hourMs = m from
    Int.mul_ediv_cancel_left m (by norm_num [hourMs]))]

lemma mem_funding_pre {events : List FundingRate} {s e : ℤ} {r : FundingRate}
    (hr : r ∈ dedupByKey (fun q : FundingRate => q.rate)
        (((dedupByKey (fun q : FundingRate => q.ts) events).insertionSort fundLE).filter
          (fun q => decide (s ≤ q.ts) && decide (q.ts ≤ e)))) :
    r ∈ events := by
  have h1 := (dedupByKey_sublist (fun q : FundingRate => q.rate) _).mem hr
  have h2 := List.mem_of_mem_filter h1
  have h3 := (List.mem_insertionSort fundLE).mp h2
  exact (dedupByKey_sublist (fun q : FundingRate => q.ts) _).mem h3

/-- C6 (amended): the hourly funding grid runs from `floor(start, hour)` to
`ceil(end, hour)` inclusive, so it has exactly
`(ceilHour end − floorHour start) / hour + 1` rows — which exceeds the
claim's `⌈(end−start)/hour⌉ + 1` whenever `start` and `end` sit strictly
inside different positions of their hours — and every grid hour that is
not the floor-hour of any input event carries the value 0.0. -/
theorem funding_grid_rows_and_zero_fill (events : List FundingRate)
    (s e : ℤ) (h : s ≤ e) :
    (get_funding_bybit_grid events s e).length
        = (Int.ediv (ceilHour e - floorHour s) hourMs + 1).toNat
    ∧ ∀ p ∈ get_funding_bybit_grid events s e,
        (∀ ev ∈ events, floorHour ev.ts ≠ p.1) → p.2 = 0 := by
  constructor
  · simp only [get_funding_bybit_grid]
    rw [List.length_map, hourlyRange, List.length_map, List.length_range]
  · intro p hp hfl
    simp only [get_funding_bybit_grid, List.mem_map] at hp
    obtain ⟨hh, hhr, rfl⟩ := hp
    have hmult : ∃ m : ℤ, hh = hourMs * m := by
      simp only [hourlyRange, List.mem_map, List.mem_range] at hhr
      obtain ⟨i, _, rfl⟩ := hhr
      exact ⟨Int.ediv s hourMs + (i : ℤ), by rw [floorHour]; ring⟩
    cases hfind : (dedupByKey (fun q : FundingRate => q.rate)
        (((dedupByKey (fun q : FundingRate => q.ts) events).insertionSort fundLE).filter
          (fun q => decide (s ≤ q.ts) && decide (q.ts ≤ e)))).find?
            (fun r => decide (r.ts = hh)) with
    | none => simp [hfind]
    | some r =>
      exfalso
      have hts : r.ts = hh := by
        have := List.find?_some hfind
        simpa using this
      have hev : r ∈ events := mem_funding_pre (List.mem_of_find?_eq_some hfind)
      obtain ⟨m, rfl⟩ := hmult
      exact hfl r hev (by rw [hts, floorHour_multiple])

/-- C6 counterexample: one funding event at 01:00, window from 00:30 to
02:30 (in ms).  The grid runs over the hours 00:00,01:00,02:00,03:00 — 4
rows — while the claim's formula `⌈(end−start)/1h⌉ + 1` gives 3. -/
theorem funding_grid_rowcount_counterexample :
    (get_funding_bybit_grid [⟨3600000, 1/100⟩] 1800000 9000000).length = 4
    ∧ (Int.ediv ((9000000 - 1800000) + (hourMs - 1)) hourMs + 1).toNat = 3
    ∧ (4 : ℕ) ≠ 3 := by
  refine ⟨?_, by decide, by decide⟩
  decide

/-- Witness for C6 at a concrete event list and window. -/
theorem funding_grid_rows_and_zero_fill_witness :
    (1800000 : ℤ) ≤ 9000000
    ∧ ((get_funding_bybit_grid [⟨3600000, 1/100⟩] 1800000 9000000).length
          = (Int.ediv (ceilHour 9000000 - floorHour 1800000) hourMs + 1).toNat
      ∧ ∀ p ∈ get_funding_bybit_grid [⟨3600000, 1/100⟩] 1800000 9000000,
          (∀ ev ∈ ([⟨3600000, 1/100⟩] : List FundingRate), floorHour ev.ts ≠ p.1)
          → p.2 = 0) :=
  ⟨by decide,
    funding_grid_rows_and_zero_fill [⟨3600000, 1/100⟩] 1800000 9000000 (by decide)⟩

end Downloader
